import Mathlib

/-!
# Verification of the day-4 streaming grid word scanner

Shallow embedding of `src/day-4/src/lib.rs`: a constant-memory scan over a
character grid delivered as a stream of lines.  The scanner keeps a rolling
window of three rows (`vec_init` / `vec_update`), forms three-letter vertical
and diagonal candidates anchored at the bottom row (`form_word`), counts the
diagonal candidates matching "MAS" or "SAM" (`count_verticals`), and drives the
whole scan until the leading window row is empty (`xmas_count`).

Rows are lists of characters.  The line source is a list of reads, each read
being either a row or a read error (`Except Unit Row`), consumed front to
back; this models the `Lines<BufReader>` iterator.  The scan loop is embedded
with explicit fuel so that every definition is structurally recursive and
computable; termination of the original `while` loop is the statement that the
fuel chosen by `xmas_count` is always sufficient.  An out-of-bounds vector
index (a Rust panic) is modelled by `none` from `vec_update` and surfaces as
the distinguished outcome `ScanOut.oob`.
-/

namespace Day4

/-- A grid row: one line of the input as a list of characters. -/
abbrev Row : Type := List Char

/-- One pull from the line source: a successfully read row or a read error. -/
abbrev LineRead : Type := Except Unit Row

/-- A line source: the remaining stream of reads, consumed front to back. -/
abbrev Src : Type := List LineRead

/-- Whether a pull from the source succeeded. -/
def isOkRead : LineRead → Bool
  | Except.ok _ => true
  | Except.error _ => false

/-- Loop body of `form_word`: the Rust `for i in 0..3` loop, with `fuel`
counting the remaining iterations (`fuel = 3 - i`).  Each step reads row
`2 - i` of the window at column `idx + i * dir`; a negative column or a read
past the end of the row returns the candidate accumulated so far. -/
def form_word_go (lines_vec : List Row) (idx : Nat) (dir : Int) :
    Nat → Nat → List Char → List Char
  | 0, _, s => s
  | fuel + 1, i, s =>
    if (idx : Int) + (i : Int) * dir < 0 then s
    else
      match (lines_vec.getD (2 - i) [])[((idx : Int) + (i : Int) * dir).toNat]? with
      | some ch => form_word_go lines_vec idx dir fuel (i + 1) (s ++ [ch])
      | none => s

/-- `form_word` from the source: form a 3-letter word read bottom-to-top from
the window, in direction `0` (vertical), `-1` (left diagonal) or `1` (right
diagonal); any other direction, or a window of fewer than 3 rows, yields the
empty candidate. -/
def form_word (lines_vec : List Row) (idx : Nat) (dir : Int) : List Char :=
  if ¬ (dir = 0 ∨ dir = -1 ∨ dir = 1) then []
  else if lines_vec.length < 3 then []
  else form_word_go lines_vec idx dir 3 0 []

/-- Non-overlapping substring count, fuelled: the semantics of Rust
`str::matches(pat).count()` for a non-empty pattern, with `fuel` bounding the
number of scan positions. -/
def countSubstrGo (pat : List Char) : Nat → List Char → Nat
  | 0, _ => 0
  | _, [] => 0
  | fuel + 1, ch :: rest =>
    if pat.isPrefixOf (ch :: rest) then
      1 + countSubstrGo pat fuel (rest.drop (pat.length - 1))
    else countSubstrGo pat fuel rest

/-- Number of non-overlapping occurrences of `pat` in `s`, leftmost first:
the semantics of Rust `s.matches(pat).count()`. -/
def countSubstr (s pat : List Char) : Nat :=
  if pat = [] then s.length + 1 else countSubstrGo pat s.length s

/-- The cross-arm pattern "MAS". -/
def masPat : List Char := ['M', 'A', 'S']

/-- The reversed cross-arm pattern "SAM". -/
def samPat : List Char := ['S', 'A', 'M']

/-- `count_verticals` from the source: for every column of the bottom row and
each diagonal direction, count occurrences of "MAS" and "SAM" in the formed
candidate; a window of fewer than 3 rows counts 0.  (The Rust function returns
`Result` but has no failing path, so it is embedded as a plain `Nat`.) -/
def count_verticals (lines_vec : List Row) : Nat :=
  if lines_vec.length < 3 then 0
  else
    (List.range (lines_vec.getD 2 []).length).foldl
      (fun count i =>
        ([-1, 1] : List Int).foldl
          (fun count j =>
            count + countSubstr (form_word lines_vec i j) masPat
              + countSubstr (form_word lines_vec i j) samPat)
          count)
      0

/-- `vec_update` from the source: shift the window forward by one row
(`v[0] = v[1]; v[1] = v[2]`) and fill the last slot with the next read from the
source, or with the empty sentinel row if the source is exhausted.  Indexing a
vector of fewer than 3 rows panics in Rust; that outcome is `none`.  A failed
read propagates as `Except.error`. -/
def vec_update (v : List Row) (src : Src) : Option (Except Unit (List Row × Src)) :=
  if v.length < 3 then none
  else
    let v1 := v.set 0 (v.getD 1 [])
    let v2 := v1.set 1 (v1.getD 2 [])
    match src with
    | [] => some (Except.ok (v2.set 2 [], []))
    | Except.ok row :: rest => some (Except.ok (v2.set 2 row, rest))
    | Except.error e :: _ => some (Except.error e)

/-- Loop body of `vec_init`: push up to `k` reads from the source, padding with
empty rows once the source is exhausted; a failed read aborts with its error. -/
def vec_init_go : Nat → Src → List Row → Except Unit (List Row × Src)
  | 0, src, v => Except.ok (v, src)
  | k + 1, [], v => vec_init_go k [] (v ++ [[]])
  | k + 1, Except.ok row :: rest, v => vec_init_go k rest (v ++ [row])
  | _ + 1, Except.error e :: _, _ => Except.error e

/-- `vec_init` from the source: initialize the 3-row window from the source. -/
def vec_init (src : Src) : Except Unit (List Row × Src) :=
  vec_init_go 3 src []

/-- Outcome of a scan: a complete count, a propagated read error, or the
Rust panic from indexing a too-short window. -/
inductive ScanOut : Type
  | ok (count : Nat)
  | err
  | oob
deriving DecidableEq

/-- The `while !lines_vec[0].is_empty()` loop of `xmas_count`, fuelled:
`none` means the fuel ran out before the loop exited. -/
def scan_loop : Nat → Nat → List Row → Src → Option ScanOut
  | 0, _, _, _ => none
  | fuel + 1, count, v, src =>
    if v.getD 0 [] = [] then some (ScanOut.ok count)
    else
      match vec_update v src with
      | none => some ScanOut.oob
      | some (Except.error _) => some ScanOut.err
      | some (Except.ok (v2, src2)) =>
        scan_loop fuel (count + count_verticals v) v2 src2

/-- `xmas_count` from the source, over an already-opened line source:
initialize the window, then run the scan loop.  The fuel `src2.length + 4`
is enough for the loop to exit on its own (proved below). -/
def xmas_count (src : Src) : Option ScanOut :=
  match vec_init src with
  | Except.error _ => some ScanOut.err
  | Except.ok (v, src2) => scan_loop (src2.length + 4) 0 v src2

/-- Termination measure of the scan loop at a given window: the index of the
first empty row among the three window slots (capped at 3). -/
def fCap (v : List Row) : Nat :=
  if v.getD 0 [] = [] then 0
  else if v.getD 1 [] = [] then 1
  else if v.getD 2 [] = [] then 2
  else 3

/-- Modelled from the spec: `MatchCounter.count_in_candidate` returns 1 if the
candidate equals the pattern or its character reversal, else 0.  (The spec
component has no direct counterpart function in the source; the source inlines
substring matching, compared against this definition in the counting-rule
theorem.) -/
def count_in_candidate (candidate pat : List Char) : Nat :=
  if candidate = pat ∨ candidate = pat.reverse then 1 else 0

/-- Modelled from the spec: the known 10 x 10 example grid of this puzzle
class.  The repository's data file `data/input_test_9.txt` is not among the
sources; the grid is the canonical example grid whose rows also appear in the
repository's own unit tests. -/
def exampleGrid : List Row :=
  ["MMMSXXMASM", "MSAMXMSMSA", "AMXSXMAAMM", "MSAMASMSMX", "XMASAMXAMM",
   "XXAMMXXAMA", "SMSMSASXSS", "SAXAMASAAA", "MAMMMXMMMM", "MXMXAXMASX"].map
    String.toList

/-- The example grid as an error-free line source. -/
def exampleSrc : Src := exampleGrid.map Except.ok

/-- The 3-row window used by the repository's `form_word` unit tests. -/
def testWindow : List Row :=
  ["MMMSXXMASM", "MSAMXMSMSA", "AMXSXMAAMM"].map String.toList

/-! ## Facts about `form_word` -/

lemma form_word_go_len_le (v : List Row) (c : Nat) (d : Int) :
    ∀ (fuel i : Nat) (s : List Char),
      (form_word_go v c d fuel i s).length ≤ s.length + fuel := by
  intro fuel
  induction fuel with
  | zero => intro i s; simp [form_word_go]
  | succ n ih =>
    intro i s
    simp only [form_word_go]
    split
    · omega
    · split
      · rename_i ch _
        have := ih (i + 1) (s ++ [ch])
        simp only [List.length_append, List.length_cons, List.length_nil] at this
        omega
      · omega

lemma form_word_go_len_eq_iff (v : List Row) (c : Nat) (d : Int) :
    ∀ (fuel i : Nat) (s : List Char),
      ((form_word_go v c d fuel i s).length = s.length + fuel ↔
        ∀ k : Nat, k < fuel →
          0 ≤ (c : Int) + ((i + k : Nat) : Int) * d ∧
            ((c : Int) + ((i + k : Nat) : Int) * d).toNat <
              (v.getD (2 - (i + k)) []).length) := by
  intro fuel
  induction fuel with
  | zero => intro i s; simp [form_word_go]
  | succ n ih =>
    intro i s
    simp only [form_word_go]
    by_cases hneg : (c : Int) + (i : Int) * d < 0
    · rw [if_pos hneg]
      constructor
      · intro hlen; exact absurd hlen (by omega)
      · intro hall
        have h0 := (hall 0 (by omega)).1
        simp only [Nat.add_zero] at h0
        exact absurd h0 (not_le.mpr hneg)
    · rw [if_neg hneg]
      split
      · rename_i ch hch
        have hlt : ((c : Int) + (i : Int) * d).toNat < (v.getD (2 - i) []).length := by
          by_contra hge
          rw [List.getElem?_eq_none_iff.mpr (by omega)] at hch
          exact Option.noConfusion hch
        have hstep := ih (i + 1) (s ++ [ch])
        constructor
        · intro hlen k hk
          rcases Nat.eq_zero_or_pos k with hk0 | hkpos
          · subst hk0
            simp only [Nat.add_zero]
            exact ⟨not_lt.mp hneg, hlt⟩
          · obtain ⟨j, rfl⟩ : ∃ j, k = j + 1 := ⟨k - 1, by omega⟩
            have hlen2 : (form_word_go v c d n (i + 1) (s ++ [ch])).length
                = (s ++ [ch]).length + n := by
              simp only [List.length_append, List.length_cons, List.length_nil] at hlen ⊢
              omega
            have hres := hstep.mp hlen2 j (by omega)
            have hidx : i + 1 + j = i + (j + 1) := by omega
            rw [hidx] at hres
            exact hres
        · intro hall
          have hlen2 : (form_word_go v c d n (i + 1) (s ++ [ch])).length
              = (s ++ [ch]).length + n := by
            apply hstep.mpr
            intro k hk
            have hres := hall (k + 1) (by omega)
            have hidx : i + (k + 1) = i + 1 + k := by omega
            rw [hidx] at hres
            exact hres
          simp only [List.length_append, List.length_cons, List.length_nil] at hlen2 ⊢
          omega
      · rename_i hch
        have hle : (v.getD (2 - i) []).length ≤ ((c : Int) + (i : Int) * d).toNat :=
          List.getElem?_eq_none_iff.mp hch
        constructor
        · intro hlen; exact absurd hlen (by omega)
        · intro hall
          have h0 := (hall 0 (by omega)).2
          simp only [Nat.add_zero] at h0
          omega

lemma form_word_length_le_three (v : List Row) (c : Nat) (d : Int) :
    (form_word v c d).length ≤ 3 := by
  unfold form_word
  split
  · simp
  · split
    · simp
    · have := form_word_go_len_le v c d 3 0 []
      simpa using this

lemma form_word_go_step (v : List Row) (c : Nat) (d : Int) (fuel i : Nat)
    (s : List Char) (ch : Char)
    (hnn : 0 ≤ (c : Int) + (i : Int) * d)
    (hch : (v.getD (2 - i) [])[((c : Int) + (i : Int) * d).toNat]? = some ch) :
    form_word_go v c d (fuel + 1) i s = form_word_go v c d fuel (i + 1) (s ++ [ch]) := by
  simp only [form_word_go]
  rw [if_neg (not_lt.mpr hnn), hch]

/-- C3: `form_word` is total with the edge policy: its candidate never exceeds
length 3, and (for a window of at least 3 rows and a valid direction) it has
length exactly 3 precisely when every one of the three reads is in range —
a negative column or a read past a row's end yields a strictly shorter
candidate. -/
theorem form_word_edge_policy (v : List Row) (c : Nat) (d : Int) :
    (form_word v c d).length ≤ 3 ∧
      (3 ≤ v.length → (d = 0 ∨ d = -1 ∨ d = 1) →
        ((form_word v c d).length = 3 ↔
          ∀ i : Nat, i < 3 →
            0 ≤ (c : Int) + (i : Int) * d ∧
              ((c : Int) + (i : Int) * d).toNat < (v.getD (2 - i) []).length)) := by
  refine ⟨form_word_length_le_three v c d, ?_⟩
  intro hlen hdir
  unfold form_word
  rw [if_neg (not_not_intro hdir), if_neg (by omega)]
  have := form_word_go_len_eq_iff v c d 3 0 []
  simpa using this

/-- Witness for C3 at the boundary case of the spec: a right diagonal anchored
at the last column of the bottom row of the test window yields a candidate
shorter than 3 instead of reading out of range. -/
theorem form_word_edge_policy_witness :
    (form_word testWindow 9 1).length ≤ 3 ∧
      ((form_word testWindow 9 1).length = 3 ↔
        ∀ i : Nat, i < 3 →
          0 ≤ (9 : Int) + (i : Int) * 1 ∧
            ((9 : Int) + (i : Int) * 1).toNat < (testWindow.getD (2 - i) []).length) :=
  ⟨(form_word_edge_policy testWindow 9 1).1,
    (form_word_edge_policy testWindow 9 1).2 (by decide) (by decide)⟩

/-- C2: direction semantics of `form_word`: on a 3-row window, with all three
reads in range, the candidate is read bottom-to-top, one character per row, at
columns `c + i * step` with step 0 (vertical), 1 (right diagonal) or -1 (left
diagonal); and on the repository's test window at anchor column 5 the right
diagonal gives "MSA", the left diagonal "MXS" and the vertical "MMX". -/
theorem form_word_direction_semantics :
    (∀ (v : List Row) (c : Nat) (d : Int),
        v.length = 3 → (d = 0 ∨ d = -1 ∨ d = 1) →
        (∀ i : Nat, i < 3 →
          0 ≤ (c : Int) + (i : Int) * d ∧
            ((c : Int) + (i : Int) * d).toNat < (v.getD (2 - i) []).length) →
        form_word v c d =
          [(v.getD 2 []).getD ((c : Int) + 0 * d).toNat ' ',
           (v.getD 1 []).getD ((c : Int) + 1 * d).toNat ' ',
           (v.getD 0 []).getD ((c : Int) + 2 * d).toNat ' ']) ∧
      form_word testWindow 5 1 = ['M', 'S', 'A'] ∧
        form_word testWindow 5 (-1) = ['M', 'X', 'S'] ∧
          form_word testWindow 5 0 = ['M', 'M', 'X'] := by
  refine ⟨?_, by decide, by decide, by decide⟩
  intro v c d hv hdir hP
  have h0 := hP 0 (by omega)
  have h1 := hP 1 (by omega)
  have h2 := hP 2 (by omega)
  have hnn0 : 0 ≤ (c : Int) + 0 * d := h0.1
  have hnn1 : 0 ≤ (c : Int) + 1 * d := h1.1
  have hnn2 : 0 ≤ (c : Int) + 2 * d := h2.1
  have hb0 : ((c : Int) + 0 * d).toNat < (v.getD 2 []).length := h0.2
  have hb1 : ((c : Int) + 1 * d).toNat < (v.getD 1 []).length := h1.2
  have hb2 : ((c : Int) + 2 * d).toNat < (v.getD 0 []).length := h2.2
  have e0 : (v.getD 2 [])[((c : Int) + 0 * d).toNat]? =
      some ((v.getD 2 []).getD ((c : Int) + 0 * d).toNat ' ') := by
    rw [List.getElem?_eq_getElem hb0, List.getD_eq_getElem _ _ hb0]
  have e1 : (v.getD 1 [])[((c : Int) + 1 * d).toNat]? =
      some ((v.getD 1 []).getD ((c : Int) + 1 * d).toNat ' ') := by
    rw [List.getElem?_eq_getElem hb1, List.getD_eq_getElem _ _ hb1]
  have e2 : (v.getD 0 [])[((c : Int) + 2 * d).toNat]? =
      some ((v.getD 0 []).getD ((c : Int) + 2 * d).toNat ' ') := by
    rw [List.getElem?_eq_getElem hb2, List.getD_eq_getElem _ _ hb2]
  calc form_word v c d
      = form_word_go v c d 3 0 [] := by
        unfold form_word
        rw [if_neg (not_not_intro hdir), if_neg (by omega)]
    _ = form_word_go v c d 2 1 [(v.getD 2 []).getD ((c : Int) + 0 * d).toNat ' '] :=
        form_word_go_step v c d 2 0 [] _ hnn0 e0
    _ = form_word_go v c d 1 2 [(v.getD 2 []).getD ((c : Int) + 0 * d).toNat ' ',
          (v.getD 1 []).getD ((c : Int) + 1 * d).toNat ' '] :=
        form_word_go_step v c d 1 1 _ _ hnn1 e1
    _ = form_word_go v c d 0 3 [(v.getD 2 []).getD ((c : Int) + 0 * d).toNat ' ',
          (v.getD 1 []).getD ((c : Int) + 1 * d).toNat ' ',
          (v.getD 0 []).getD ((c : Int) + 2 * d).toNat ' '] :=
        form_word_go_step v c d 0 2 _ _ hnn2 e2
    _ = _ := rfl

/-- Witness for C2: the direction-semantics clause applied to the repository's
test window at anchor column 5, right diagonal. -/
theorem form_word_direction_semantics_witness :
    form_word testWindow 5 1 =
      [(testWindow.getD 2 []).getD ((5 : Int) + 0 * 1).toNat ' ',
       (testWindow.getD 1 []).getD ((5 : Int) + 1 * 1).toNat ' ',
       (testWindow.getD 0 []).getD ((5 : Int) + 2 * 1).toNat ' '] :=
  form_word_direction_semantics.1 testWindow 5 1 (by decide) (by decide) (by decide)

/-! ## Facts about the rolling window -/

/-- C4: advance semantics of `vec_update` on a 3-row window: drop row 0, shift
the remaining rows down, and append the next row pulled from the source
(consuming exactly that one read) or the empty sentinel when the source is
exhausted (consuming nothing). -/
theorem vec_update_advance_semantics (a b c r : Row) (rest : Src) :
    vec_update [a, b, c] [] = some (Except.ok ([b, c, []], [])) ∧
      vec_update [a, b, c] (Except.ok r :: rest) = some (Except.ok ([b, c, r], rest)) :=
  ⟨rfl, rfl⟩

lemma exists_cons3 (v : List Row) (h3 : ¬ v.length < 3) :
    ∃ a b c t, v = a :: b :: c :: t := by
  rcases v with _ | ⟨a, _ | ⟨b, _ | ⟨c, t⟩⟩⟩
  · simp at h3
  · simp at h3
  · simp at h3
  · exact ⟨a, b, c, t, rfl⟩

lemma vec_init_ok (src : Src) (v : List Row) (src2 : Src)
    (h : vec_init src = Except.ok (v, src2)) :
    v.length = 3 ∧ src2 = src.drop 3 := by
  rcases src with _ | ⟨e0 | r0, _ | ⟨e1 | r1, _ | ⟨e2 | r2, rest⟩⟩⟩
  all_goals simp [vec_init, vec_init_go] at h
  all_goals obtain ⟨hv, hs⟩ := h
  all_goals subst hv
  all_goals subst hs
  all_goals simp

lemma vec_init_error_iff (src : Src) :
    vec_init src = Except.error () ↔ (src.take 3).any (fun x => !isOkRead x) = true := by
  rcases src with _ | ⟨⟨⟩ | r0, _ | ⟨⟨⟩ | r1, _ | ⟨⟨⟩ | r2, rest⟩⟩⟩ <;>
    simp [vec_init, vec_init_go, isOkRead]

lemma vec_update_ok_length (v : List Row) (src : Src) (v2 : List Row) (src2 : Src)
    (h : vec_update v src = some (Except.ok (v2, src2))) : v2.length = v.length := by
  unfold vec_update at h
  by_cases h3 : v.length < 3
  · rw [if_pos h3] at h
    exact Option.noConfusion h
  · rw [if_neg h3] at h
    rcases src with _ | ⟨e0 | r0, rest⟩ <;> simp at h
    · obtain ⟨hv, _⟩ := h
      subst hv
      simp [List.length_set]
    · obtain ⟨hv, _⟩ := h
      subst hv
      simp [List.length_set]

lemma vec_update_cons3_ne_none (a b c : Row) (t : List Row) (src : Src) :
    vec_update (a :: b :: c :: t) src ≠ none := by
  unfold vec_update
  rw [if_neg (by simp [List.length_cons])]
  rcases src with _ | ⟨e0 | r0, rest⟩ <;> simp

/-! ## Termination of the scan loop -/

lemma fCap_le_three (v : List Row) : fCap v ≤ 3 := by
  unfold fCap
  split_ifs <;> omega

lemma fCap_shift_le (a b c r : Row) (t : List Row) (ha : a ≠ []) :
    fCap (b :: c :: r :: t) ≤ fCap (a :: b :: c :: t) := by
  simp only [fCap, List.getD_cons_zero, List.getD_cons_succ]
  split_ifs <;> simp_all

lemma fCap_shift_lt (a b c : Row) (t : List Row) (ha : a ≠ []) :
    fCap (b :: c :: [] :: t) < fCap (a :: b :: c :: t) := by
  simp only [fCap, List.getD_cons_zero, List.getD_cons_succ]
  split_ifs <;> simp_all

lemma scan_loop_succ_done (n count : Nat) (v : List Row) (src : Src)
    (h0 : v.getD 0 [] = []) :
    scan_loop (n + 1) count v src = some (ScanOut.ok count) := by
  simp only [scan_loop]
  rw [if_pos h0]

lemma scan_loop_step_oob (n count : Nat) (v : List Row) (src : Src)
    (h0 : ¬ v.getD 0 [] = []) (h3 : v.length < 3) :
    scan_loop (n + 1) count v src = some ScanOut.oob := by
  simp only [scan_loop]
  rw [if_neg h0]
  have hupd : vec_update v src = none := by
    unfold vec_update
    rw [if_pos h3]
  rw [hupd]

lemma scan_loop_step_nil (n count : Nat) (a b c : Row) (t : List Row)
    (ha : ¬ a = []) :
    scan_loop (n + 1) count (a :: b :: c :: t) [] =
      scan_loop n (count + count_verticals (a :: b :: c :: t)) (b :: c :: [] :: t) [] := by
  simp only [scan_loop]
  rw [if_neg (show ¬ (a :: b :: c :: t).getD 0 [] = [] from ha)]
  rfl

lemma scan_loop_step_ok (n count : Nat) (a b c r : Row) (t : List Row) (rest : Src)
    (ha : ¬ a = []) :
    scan_loop (n + 1) count (a :: b :: c :: t) (Except.ok r :: rest) =
      scan_loop n (count + count_verticals (a :: b :: c :: t)) (b :: c :: r :: t) rest := by
  simp only [scan_loop]
  rw [if_neg (show ¬ (a :: b :: c :: t).getD 0 [] = [] from ha)]
  rfl

lemma scan_loop_step_err (n count : Nat) (a b c : Row) (t : List Row) (e : Unit)
    (rest : Src) (ha : ¬ a = []) :
    scan_loop (n + 1) count (a :: b :: c :: t) (Except.error e :: rest) =
      some ScanOut.err := by
  simp only [scan_loop]
  rw [if_neg (show ¬ (a :: b :: c :: t).getD 0 [] = [] from ha)]
  rfl

lemma scan_loop_isSome (fuel : Nat) :
    ∀ (count : Nat) (v : List Row) (src : Src),
      src.length + fCap v < fuel → (scan_loop fuel count v src).isSome := by
  induction fuel with
  | zero => intro count v src h; exact absurd h (by omega)
  | succ n ih =>
    intro count v src h
    by_cases h0 : v.getD 0 [] = []
    · rw [scan_loop_succ_done n count v src h0]
      rfl
    · by_cases h3 : v.length < 3
      · rw [scan_loop_step_oob n count v src h0 h3]
        rfl
      · obtain ⟨a, b, c, t, rfl⟩ := exists_cons3 v h3
        have ha : ¬ a = [] := by simpa using h0
        rcases src with _ | ⟨e0 | r0, rest⟩
        · rw [scan_loop_step_nil n count a b c t ha]
          apply ih
          have hlt := fCap_shift_lt a b c t ha
          simp only [List.length_nil] at h ⊢
          omega
        · rw [scan_loop_step_err n count a b c t e0 rest ha]
          rfl
        · rw [scan_loop_step_ok n count a b c r0 t rest ha]
          apply ih
          have hle := fCap_shift_le a b c r0 t ha
          simp only [List.length_cons] at h ⊢
          omega

lemma scan_loop_ne_oob (fuel : Nat) :
    ∀ (count : Nat) (v : List Row) (src : Src), v.length = 3 →
      scan_loop fuel count v src ≠ some ScanOut.oob := by
  induction fuel with
  | zero => intro count v src h3; simp [scan_loop]
  | succ n ih =>
    intro count v src h3
    rcases v with _ | ⟨a, _ | ⟨b, _ | ⟨c, t⟩⟩⟩
    · simp at h3
    · simp at h3
    · simp at h3
    · simp only [List.length_cons] at h3
      have ht : t = [] := List.length_eq_zero.mp (by omega : t.length = 0)
      subst ht
      by_cases ha : a = []
      · rw [scan_loop_succ_done n count _ src (by simpa using ha)]
        simp
      · rcases src with _ | ⟨e0 | r0, rest⟩
        · rw [scan_loop_step_nil n count a b c [] ha]
          exact ih _ _ _ rfl
        · rw [scan_loop_step_err n count a b c [] e0 rest ha]
          simp
        · rw [scan_loop_step_ok n count a b c r0 [] rest ha]
          exact ih _ _ _ rfl

lemma scan_loop_no_err (fuel : Nat) :
    ∀ (count : Nat) (v : List Row) (src : Src),
      src.all isOkRead = true → scan_loop fuel count v src ≠ some ScanOut.err := by
  induction fuel with
  | zero => intro count v src hok; simp [scan_loop]
  | succ n ih =>
    intro count v src hok
    by_cases h0 : v.getD 0 [] = []
    · rw [scan_loop_succ_done n count v src h0]
      simp
    · by_cases h3 : v.length < 3
      · rw [scan_loop_step_oob n count v src h0 h3]
        simp
      · obtain ⟨a, b, c, t, rfl⟩ := exists_cons3 v h3
        have ha : ¬ a = [] := by simpa using h0
        rcases src with _ | ⟨e0 | r0, rest⟩
        · rw [scan_loop_step_nil n count a b c t ha]
          exact ih _ _ _ (by simp)
        · simp [isOkRead] at hok
        · rw [scan_loop_step_ok n count a b c r0 t rest ha]
          apply ih
          simp only [List.all_cons, Bool.and_eq_true] at hok
          exact hok.2

/-- C5: window-length invariant: `vec_init` always returns a window of exactly
3 rows, padding a short source with empty rows at the tail, and fails exactly
when one of the (at most three) reads it performs fails — never merely because
the input is short; `vec_update` preserves the window length. -/
theorem window_length_invariant :
    (∀ (src : Src) (v : List Row) (src2 : Src),
        vec_init src = Except.ok (v, src2) → v.length = 3) ∧
      (∀ src : Src,
        vec_init src = Except.error () ↔
          (src.take 3).any (fun x => !isOkRead x) = true) ∧
      vec_init [] = Except.ok ([[], [], []], []) ∧
      (∀ a : Row, vec_init [Except.ok a] = Except.ok ([a, [], []], [])) ∧
      (∀ a b : Row, vec_init [Except.ok a, Except.ok b] = Except.ok ([a, b, []], [])) ∧
      (∀ (v : List Row) (src : Src) (v2 : List Row) (src2 : Src),
        vec_update v src = some (Except.ok (v2, src2)) → v2.length = v.length) :=
  ⟨fun src v src2 h => (vec_init_ok src v src2 h).1, vec_init_error_iff, rfl,
    fun _ => rfl, fun _ _ => rfl, vec_update_ok_length⟩

/-- Witness for C5: the window built from the empty source has length 3. -/
theorem window_length_invariant_witness : ([[], [], []] : List Row).length = 3 :=
  window_length_invariant.1 [] [[], [], []] [] rfl

/-- C10: `vec_update` hits its out-of-bounds indexing (a panic) exactly on
windows of fewer than 3 rows, and under the invariant established by
`vec_init` and preserved by `vec_update` that branch is unreachable in the
scan: `xmas_count` never produces the out-of-bounds outcome. -/
theorem vec_update_oob_safety :
    (∀ (v : List Row) (src : Src), vec_update v src = none ↔ v.length < 3) ∧
      (∀ src : Src, xmas_count src ≠ some ScanOut.oob) := by
  constructor
  · intro v src
    constructor
    · intro h
      by_contra h3
      obtain ⟨a, b, c, t, rfl⟩ := exists_cons3 v h3
      exact vec_update_cons3_ne_none a b c t src h
    · intro h3
      unfold vec_update
      rw [if_pos h3]
  · intro src
    unfold xmas_count
    cases hinit : vec_init src with
    | error e =>
      intro hcon
      exact ScanOut.noConfusion (Option.some.inj hcon)
    | ok p =>
      obtain ⟨v, src2⟩ := p
      exact scan_loop_ne_oob _ 0 v src2 (vec_init_ok src v src2 hinit).1

/-- Witness for C10: the empty window makes `vec_update` hit the
out-of-bounds branch, while the scan itself never does. -/
theorem vec_update_oob_safety_witness :
    vec_update [] [] = none ∧ xmas_count [] ≠ some ScanOut.oob :=
  ⟨(vec_update_oob_safety.1 [] []).mpr (by decide), vec_update_oob_safety.2 []⟩

/-- C7: the scan loop terminates: with the fuel budget `src.length + 4` the
fuelled loop always completes (each iteration either consumes a source read or
moves the first empty sentinel one slot forward), and `xmas_count` always
returns an outcome for every finite source. -/
theorem scan_terminates :
    (∀ (fuel count : Nat) (v : List Row) (src : Src),
        src.length + 4 ≤ fuel → (scan_loop fuel count v src).isSome) ∧
      ∀ src : Src, (xmas_count src).isSome := by
  constructor
  · intro fuel count v src hfuel
    apply scan_loop_isSome
    have := fCap_le_three v
    omega
  · intro src
    unfold xmas_count
    cases hinit : vec_init src with
    | error e => rfl
    | ok p =>
      obtain ⟨v, src2⟩ := p
      apply scan_loop_isSome
      have := fCap_le_three v
      omega

/-- Witness for C7: the loop completes on a small concrete state. -/
theorem scan_terminates_witness : (scan_loop 5 0 [[], [], []] []).isSome :=
  scan_terminates.1 5 0 [[], [], []] [] (by decide)

/-! ## Error behaviour of the whole scan -/

lemma scan_loop_hits_error (rows : List Row) :
    ∀ (fuel : Nat) (a b c : Row) (count : Nat) (e : Unit) (rest : Src),
      (∀ r ∈ rows, r ≠ []) → ¬ a = [] → ¬ b = [] → ¬ c = [] →
      rows.length + 1 ≤ fuel →
      scan_loop fuel count [a, b, c] (rows.map Except.ok ++ Except.error e :: rest)
        = some ScanOut.err := by
  induction rows with
  | nil =>
    intro fuel a b c count e rest hrows ha hb hc hfuel
    obtain ⟨n, rfl⟩ : ∃ n, fuel = n + 1 := ⟨fuel - 1, by omega⟩
    simp only [List.map_nil, List.nil_append]
    exact scan_loop_step_err n count a b c [] e rest ha
  | cons r rows ih =>
    intro fuel a b c count e rest hrows ha hb hc hfuel
    obtain ⟨n, rfl⟩ : ∃ n, fuel = n + 1 := ⟨fuel - 1, by omega⟩
    simp only [List.map_cons, List.cons_append]
    rw [scan_loop_step_ok n count a b c r []
      (rows.map Except.ok ++ Except.error e :: rest) ha]
    exact ih n b c r _ e rest (fun x hx => hrows x (List.mem_cons_of_mem r hx)) hb hc
      (hrows r (List.mem_cons_self r rows))
      (by simp only [List.length_cons] at hfuel; omega)

lemma xmas_count_hits_error (rows : List Row) (e : Unit) (rest : Src)
    (hrows : ∀ r ∈ rows, r ≠ []) :
    xmas_count (rows.map Except.ok ++ Except.error e :: rest) = some ScanOut.err := by
  rcases rows with _ | ⟨r0, _ | ⟨r1, _ | ⟨r2, rows⟩⟩⟩
  · rfl
  · rfl
  · rfl
  · have hmain := scan_loop_hits_error rows
      ((rows.map Except.ok ++ Except.error e :: rest).length + 4) r0 r1 r2 0 e rest
      (fun x hx => hrows x (by simp [hx]))
      (hrows r0 (by simp)) (hrows r1 (by simp)) (hrows r2 (by simp))
      (by simp only [List.length_append, List.length_map, List.length_cons]; omega)
    exact hmain

lemma xmas_count_cases (src : Src) :
    (∃ n, xmas_count src = some (ScanOut.ok n)) ∨ xmas_count src = some ScanOut.err := by
  unfold xmas_count
  cases hinit : vec_init src with
  | error e => exact Or.inr rfl
  | ok p =>
    obtain ⟨v, src2⟩ := p
    have hv := (vec_init_ok src v src2 hinit).1
    have hsome : (scan_loop (src2.length + 4) 0 v src2).isSome := by
      apply scan_loop_isSome
      have := fCap_le_three v
      omega
    have hnoob := scan_loop_ne_oob (src2.length + 4) 0 v src2 hv
    cases hres : scan_loop (src2.length + 4) 0 v src2 with
    | none =>
      rw [hres] at hsome
      exact absurd hsome (by simp)
    | some out =>
      cases out with
      | ok n => exact Or.inl ⟨n, hres⟩
      | err => exact Or.inr hres
      | oob => exact absurd hres hnoob

lemma drop_all_ok (src : Src) (hok : src.all isOkRead = true) :
    (src.drop 3).all isOkRead = true := by
  rw [List.all_eq_true] at hok ⊢
  intro x hx
  exact hok x ((List.drop_sublist 3 src).subset hx)

lemma vec_init_all_ok (src : Src) (hok : src.all isOkRead = true) :
    ∃ v src2, vec_init src = Except.ok (v, src2) := by
  cases hinit : vec_init src with
  | ok p =>
    obtain ⟨v, src2⟩ := p
    exact ⟨v, src2, rfl⟩
  | error e =>
    obtain ⟨⟩ := e
    have herr := (vec_init_error_iff src).mp hinit
    rw [List.any_eq_true] at herr
    obtain ⟨x, hx, hxe⟩ := herr
    rw [List.all_eq_true] at hok
    have hxok := hok x (List.take_subset 3 src hx)
    rw [hxok] at hxe
    exact Bool.noConfusion hxe

lemma xmas_count_ok_src (src : Src) (hok : src.all isOkRead = true) :
    ∃ n, xmas_count src = some (ScanOut.ok n) := by
  rcases xmas_count_cases src with h | h
  · exact h
  · exfalso
    obtain ⟨v, src2, hinit⟩ := vec_init_all_ok src hok
    have hdrop := (vec_init_ok src v src2 hinit).2
    have hok2 : src2.all isOkRead = true := by
      rw [hdrop]
      exact drop_all_ok src hok
    unfold xmas_count at h
    rw [hinit] at h
    exact scan_loop_no_err _ 0 v src2 hok2 h

/-- C9: error behaviour of the scan: a failure-free source yields a complete
count (never an error); an error outcome implies some read in the stream
failed; a read failure that the scan reaches (preceded only by non-empty,
successfully read rows) yields the error; and the outcome is always either a
complete count or an error — never a partial count alongside an error. -/
theorem scan_error_model :
    (∀ src : Src, src.all isOkRead = true →
        ∃ n, xmas_count src = some (ScanOut.ok n)) ∧
      (∀ src : Src, xmas_count src = some ScanOut.err → src.all isOkRead = false) ∧
      (∀ (rows : List Row) (e : Unit) (rest : Src), (∀ r ∈ rows, r ≠ []) →
        xmas_count (rows.map Except.ok ++ Except.error e :: rest) = some ScanOut.err) ∧
      (∀ src : Src,
        (∃ n, xmas_count src = some (ScanOut.ok n)) ∨
          xmas_count src = some ScanOut.err) := by
  refine ⟨xmas_count_ok_src, ?_, xmas_count_hits_error, xmas_count_cases⟩
  intro src herr
  cases hcase : src.all isOkRead
  · rfl
  · obtain ⟨n, hn⟩ := xmas_count_ok_src src hcase
    rw [hn] at herr
    exact ScanOut.noConfusion (Option.some.inj herr)

/-- Witness for C9: a source whose very first read fails yields the error. -/
theorem scan_error_model_witness :
    xmas_count [Except.error ()] = some ScanOut.err :=
  scan_error_model.2.2.1 [] () [] (by simp)

/-- C8: grids with fewer than 3 rows (including the empty grid) count 0
without error: the window is padded with empty sentinel rows and no candidate
ever reaches length 3. -/
theorem short_grid_counts_zero (rows : List Row) (h : rows.length < 3) :
    xmas_count (rows.map Except.ok) = some (ScanOut.ok 0) := by
  rcases rows with _ | ⟨a, _ | ⟨b, _ | ⟨c, t⟩⟩⟩
  · rfl
  · by_cases ha : a = []
    · subst ha
      rfl
    · show scan_loop 4 0 [a, [], []] [] = some (ScanOut.ok 0)
      rw [scan_loop_step_nil 3 0 a [] [] [] ha]
      have hcv : count_verticals [a, [], []] = 0 := by simp [count_verticals]
      rw [hcv]
      rfl
  · by_cases ha : a = []
    · subst ha
      rfl
    · show scan_loop 4 0 [a, b, []] [] = some (ScanOut.ok 0)
      rw [scan_loop_step_nil 3 0 a b [] [] ha]
      have hcv : count_verticals [a, b, []] = 0 := by simp [count_verticals]
      rw [hcv]
      by_cases hb : b = []
      · subst hb
        rfl
      · rw [scan_loop_step_nil 2 (0 + 0) b [] [] [] hb]
        have hcv2 : count_verticals [b, [], []] = 0 := by simp [count_verticals]
        rw [hcv2]
        rfl
  · exfalso
    simp only [List.length_cons] at h
    omega

/-- Witness for C8: the empty source counts 0. -/
theorem short_grid_counts_zero_witness :
    xmas_count (([] : List Row).map Except.ok) = some (ScanOut.ok 0) :=
  short_grid_counts_zero [] (by decide)

/-! ## The per-step counting rule -/

lemma countSubstrGo_three (p1 p2 p3 a b c : Char) :
    countSubstrGo [p1, p2, p3] 3 [a, b, c] =
      if [a, b, c] = [p1, p2, p3] then 1 else 0 := by
  simp only [countSubstrGo, List.isPrefixOf, List.length_cons, List.length_nil,
    List.drop, Bool.and_true, Bool.and_false, Bool.and_eq_true, beq_iff_eq,
    List.cons.injEq, and_true]
  split_ifs <;> simp_all

lemma countSubstr_eq_count_in (s : List Char) (hs : s.length ≤ 3) :
    countSubstr s masPat + countSubstr s samPat = count_in_candidate s masPat := by
  have hrev : (['M', 'A', 'S'] : List Char).reverse = ['S', 'A', 'M'] := by decide
  rcases s with _ | ⟨a, _ | ⟨b, _ | ⟨c, _ | ⟨d, t⟩⟩⟩⟩
  · decide
  · simp [countSubstr, countSubstrGo, count_in_candidate, masPat, samPat,
      List.isPrefixOf, hrev]
  · simp [countSubstr, countSubstrGo, count_in_candidate, masPat, samPat,
      List.isPrefixOf, hrev]
  · have e1 : countSubstr [a, b, c] masPat = if [a, b, c] = masPat then 1 else 0 := by
      calc countSubstr [a, b, c] masPat = countSubstrGo masPat 3 [a, b, c] := by
            unfold countSubstr
            rw [if_neg (by decide)]
            rfl
        _ = if [a, b, c] = masPat then 1 else 0 := countSubstrGo_three 'M' 'A' 'S' a b c
    have e2 : countSubstr [a, b, c] samPat = if [a, b, c] = samPat then 1 else 0 := by
      calc countSubstr [a, b, c] samPat = countSubstrGo samPat 3 [a, b, c] := by
            unfold countSubstr
            rw [if_neg (by decide)]
            rfl
        _ = if [a, b, c] = samPat then 1 else 0 := countSubstrGo_three 'S' 'A' 'M' a b c
    rw [e1, e2]
    simp only [count_in_candidate, masPat, samPat, hrev]
    split_ifs <;> simp_all
    tauto
  · exfalso
    simp only [List.length_cons] at hs
    omega

lemma foldl_inner_sum (q r : Nat → Int → Nat) :
    ∀ (L : List Nat) (n : Nat),
      L.foldl (fun count i =>
          ([-1, 1] : List Int).foldl
            (fun count j => count + q i j + r i j) count) n
        = n + (L.map (fun i => q i (-1) + r i (-1) + q i 1 + r i 1)).sum := by
  intro L
  induction L with
  | nil => intro n; simp
  | cons x xs ih =>
    intro n
    rw [List.foldl_cons, ih]
    simp only [List.foldl_cons, List.foldl_nil, List.map_cons, List.sum_cons]
    omega

/-- C6: the per-step counting rule: on a window of at least 3 rows,
`count_verticals` is the sum, over every column of the bottom row and both
diagonal directions only, of 1 exactly when the formed candidate equals "MAS"
or its reversal "SAM" (the source's substring matching on a candidate of
length at most 3 coincides with that equality test, expressed here through
the spec's `count_in_candidate`). -/
theorem count_verticals_counting_rule (v : List Row) (h3 : 3 ≤ v.length) :
    count_verticals v =
      ((List.range (v.getD 2 []).length).map
        (fun c => count_in_candidate (form_word v c (-1)) masPat
          + count_in_candidate (form_word v c 1) masPat)).sum := by
  unfold count_verticals
  rw [if_neg (by omega)]
  rw [foldl_inner_sum (fun i j => countSubstr (form_word v i j) masPat)
    (fun i j => countSubstr (form_word v i j) samPat)]
  rw [Nat.zero_add]
  congr 1
  apply List.map_congr_left
  intro i _
  have e1 := countSubstr_eq_count_in (form_word v i (-1)) (form_word_length_le_three v i (-1))
  have e2 := countSubstr_eq_count_in (form_word v i 1) (form_word_length_le_three v i 1)
  omega

/-- Witness for C6: the counting rule evaluated on the repository's test
window. -/
theorem count_verticals_counting_rule_witness :
    count_verticals testWindow =
      ((List.range (testWindow.getD 2 []).length).map
        (fun c => count_in_candidate (form_word testWindow c (-1)) masPat
          + count_in_candidate (form_word testWindow c 1) masPat)).sum :=
  count_verticals_counting_rule testWindow (by decide)

/-! ## The example grid -/

/-- C1 (counterexample): on the known 10 x 10 example grid the scan does NOT
return 9 — the cross-pattern total claimed by the spec is not what the code
computes. -/
theorem xmas_count_example_not_nine :
    xmas_count exampleSrc ≠ some (ScanOut.ok 9) := by
  decide

/-- C1 (amended): on the known 10 x 10 example grid the scan returns 25, the
value the repository's own doc-example and unit test assert for this grid
(each diagonal "MAS"/"SAM" arm is counted on its own, not paired into
crosses). -/
theorem xmas_count_example_eq_25 :
    xmas_count exampleSrc = some (ScanOut.ok 25) := by
  decide

end Day4
